import Mathlib

/-!
# Verification of the DynamoDB key-value adapter core (`linera-views/src/dynamo_db.rs`)

Shallow embedding of the write path of the DynamoDB storage adapter:
the key codec, the transaction builder, the journal chunking algorithm
(`write_journal`), the replay algorithm (`coherently_resolve_journal`),
the recovery entry point (`clear_journal`) and the read fan-out
(`read_multi_key_bytes`).

Modelling conventions:
* Byte strings are `List Nat` (each element a byte value; the source
  manipulates `Vec<u8>` and never overflows a byte, so no masking is
  needed except in the explicit u32 codec `leU32`).
* The backend table is an association list `Store` from sort keys to
  stored values; the dummy partition attribute is constant in the source
  and is elided.
* A stored value is represented structurally (`StoredValue`): raw user
  bytes, a bcs-serialized `DynamoDbBatch` block, or a bcs-serialized
  `JournalHeader`.  bcs serialization is deterministic and injective, so
  `storedBytes` gives the concrete byte image and `read_key` recovers
  the structure exactly when the stored value has the expected shape.
* The network is modelled as always delivering a submitted transaction;
  transactions actually sent are recorded as traces so that theorems can
  speak about what was issued.
-/

/-- The tag used for the journal stuff (`JOURNAL_TAG`, value 0). -/
def JOURNAL_TAG : Nat := 0

/-- Maximum size of a value: 400KB (`MAX_VALUE_BYTES`). -/
def MAX_VALUE_BYTES : Nat := 409600

/-- Maximum number of operations in a TransactWriteItem (`MAX_TRANSACT_WRITE_ITEM_SIZE`). -/
def MAX_TRANSACT_WRITE_ITEM_SIZE : Nat := 100

/-- Maximum byte size of a BatchWriteItem (`MAX_BATCH_WRITE_ITEM_BYTES`). -/
def MAX_BATCH_WRITE_ITEM_BYTES : Nat := 16777216

/-- Byte strings. -/
abbrev Bytes := List Nat

/-- The flat normalized batch: ordered deletions and insertions
(`SimpleUnorderedBatch`, wrapped by the source as `DynamoDbBatch`). -/
structure SimpleUnorderedBatch where
  deletions : List Bytes
  insertions : List (Bytes × Bytes)
deriving DecidableEq

/-- The journal header (`JournalHeader`): a single `block_count: u32` field. -/
structure JournalHeader where
  block_count : Nat
deriving DecidableEq

/-- The error variants of `DynamoDbContextError` reachable in the embedded core. -/
inductive Err where
  | TransactUpperLimitSize
  | ZeroLengthKey
  | ZeroLengthKeyPrefix
  | DatabaseRecoveryFailed
  | ValueLengthTooLarge
  | MissingKey
  | WrongKeyType (s : String)
  | MissingValue
  | WrongValueType (s : String)
  | BcsError
deriving DecidableEq

/-- Little-endian 4-byte encoding of a `u32`, as produced by
`bcs::serialize_into` for a `u32` value (bcs fixes integers to
little-endian fixed width). -/
def leU32 (n : Nat) : Bytes :=
  [n % 256, n / 256 % 256, n / 65536 % 256, n / 16777216 % 256]

/-- Decoder for the 4-byte little-endian `u32` encoding. -/
def decodeLeU32 : Bytes → Nat
  | [a, b, c, d] => a + 256 * b + 65536 * c + 16777216 * d
  | _ => 0

/-- Embeds `get_journaling_key`: `base_key ‖ JOURNAL_TAG ‖ tag ‖ bcs(pos)` where the
u32 `pos` is bcs-serialized (4 bytes little-endian).  The source returns a
`Result` only because `bcs::serialize_into` is fallible in its signature;
serialization of a `u32` into a vector never fails, so the embedding is pure. -/
def get_journaling_key (base_key : Bytes) (tag : Nat) (pos : Nat) : Bytes :=
  base_key ++ [JOURNAL_TAG] ++ [tag] ++ leU32 pos

/-- Embeds `KeyTag::Journal as u8` (value 1): sub-tag of the journal header key. -/
def keyTagJournal : Nat := 1

/-- Embeds `KeyTag::Entry as u8` (value 2): sub-tag of the block entry keys. -/
def keyTagEntry : Nat := 2

/-- ULEB128 encoding of a length, as used by bcs for sequence lengths.
Structurally recursive on a fuel argument so that the kernel can evaluate it;
for `fuel ≥ n` the fuel never runs out since `n / 128 < n` for `n ≥ 128`. -/
def ulebGo : Nat → Nat → Bytes
  | 0, n => [n % 128]
  | fuel + 1, n => if n < 128 then [n] else (n % 128 + 128) :: ulebGo fuel (n / 128)

/-- ULEB128 encoding of a natural number (bcs sequence-length encoding). -/
def uleb (n : Nat) : Bytes := ulebGo n n

/-- bcs serialization of a byte vector: ULEB128 length then the bytes. -/
def serBytes (b : Bytes) : Bytes := uleb b.length ++ b

/-- bcs serialization of a `DynamoDbBatch` (newtype over `SimpleUnorderedBatch`):
the two vectors in declaration order, each length-prefixed. -/
def serBatch (sb : SimpleUnorderedBatch) : Bytes :=
  uleb sb.deletions.length ++ (sb.deletions.map serBytes).flatten ++
    uleb sb.insertions.length ++
      (sb.insertions.map (fun kv => serBytes kv.1 ++ serBytes kv.2)).flatten

/-- A value stored in the table, represented structurally: raw user bytes, a
bcs-serialized block entry, or a bcs-serialized journal header. -/
inductive StoredValue where
  | bytes (b : Bytes)
  | batch (b : SimpleUnorderedBatch)
  | header (h : JournalHeader)
deriving DecidableEq

/-- The concrete byte image of a stored value (bcs serialization for the
journal structures, identity for raw user bytes). -/
def storedBytes : StoredValue → Bytes
  | .bytes b => b
  | .batch b => serBatch b
  | .header h => leU32 h.block_count

/-- The length in bytes of a stored value, as checked by `insert_put_request`
(`value.len()`). -/
def storedLen (v : StoredValue) : Nat := (storedBytes v).length

/-- The backend table: an association list from sort keys to stored values.
The most recent binding for a key is the visible one. -/
abbrev Store := List (Bytes × StoredValue)

/-- Point lookup in the table. -/
def storeGet : Store → Bytes → Option StoredValue
  | [], _ => none
  | (k, v) :: rest, key => if key = k then some v else storeGet rest key

/-- Effect of a backend `Put` on the table. -/
def storePut (s : Store) (k : Bytes) (v : StoredValue) : Store := (k, v) :: s

/-- Effect of a backend `Delete` on the table. -/
def storeDel : Store → Bytes → Store
  | [], _ => []
  | (k, v) :: rest, key => if k = key then storeDel rest key else (k, v) :: storeDel rest key

/-- One operation inside a `TransactWriteItem` list: a `Put` or a `Delete`. -/
inductive WriteOp where
  | put (k : Bytes) (v : StoredValue)
  | del (k : Bytes)
deriving DecidableEq

/-- The accumulator of `TransactionBuilder` (`transacts: Vec<TransactWriteItem>`). -/
abbrev TransactionBuilder := List WriteOp

/-- Embeds `TransactionBuilder::insert_delete_request`.  Mirrors the Rust mutation
semantics: the pair is (accumulator after the call, error if any); on error the
accumulator is unchanged. -/
def insert_delete_request (tb : TransactionBuilder) (key : Bytes) :
    TransactionBuilder × Option Err :=
  if key = [] then (tb, some .ZeroLengthKey)
  else (tb ++ [.del key], none)

/-- Embeds `TransactionBuilder::insert_put_request`: rejects an empty key and an
oversize value before pushing the put. -/
def insert_put_request (tb : TransactionBuilder) (key : Bytes) (value : StoredValue) :
    TransactionBuilder × Option Err :=
  if key = [] then (tb, some .ZeroLengthKey)
  else if storedLen value > MAX_VALUE_BYTES then (tb, some .ValueLengthTooLarge)
  else (tb ++ [.put key value], none)

/-- An `Except`-style wrapper of `insert_delete_request` for chaining. -/
def insDel (tb : TransactionBuilder) (key : Bytes) : Except Err TransactionBuilder :=
  match insert_delete_request tb key with
  | (tb2, none) => .ok tb2
  | (_, some e) => .error e

/-- An `Except`-style wrapper of `insert_put_request` for chaining. -/
def insPut (tb : TransactionBuilder) (key : Bytes) (value : StoredValue) :
    Except Err TransactionBuilder :=
  match insert_put_request tb key value with
  | (tb2, none) => .ok tb2
  | (_, some e) => .error e

/-- Effect of one transaction operation on the table. -/
def applyOp (s : Store) : WriteOp → Store
  | .put k v => storePut s k v
  | .del k => storeDel s k

/-- Effect of a list of transaction operations, applied in order. -/
def applyOps (s : Store) (ops : List WriteOp) : Store := ops.foldl applyOp s

/-- Embeds `TransactionBuilder::submit`: fails with `TransactUpperLimitSize` when the
accumulated count exceeds the ceiling, makes no network call when the
accumulator is empty, and otherwise issues exactly one atomic multi-item
write.  The result records the new table state and, as `some ops`, the
payload of the network call when one was made. -/
def submit (tb : TransactionBuilder) (s : Store) :
    Except Err (Store × Option (List WriteOp)) :=
  if tb.length > MAX_TRANSACT_WRITE_ITEM_SIZE then .error .TransactUpperLimitSize
  else if tb = [] then .ok (s, none)
  else .ok (applyOps s tb, some tb)

/-- The `item_key` attribute name (`KEY_ATTRIBUTE`). -/
def KEY_ATTRIBUTE : String := "item_key"

/-- The relevant variants of the backend `AttributeValue` union: a binary
blob, or one of the non-binary variants that `extract_key` rejects. -/
inductive AttributeValue where
  | B (b : Bytes)
  | S (s : String)
  | N (s : String)
  | Bool (b : Bool)
deriving DecidableEq

/-- Embeds `type_description_of`: the human-readable description of a non-binary
attribute type.  The `B` branch is unreachable in the source (`unreachable!`)
because the callers only pass non-binary values. -/
def typeDescriptionOf : AttributeValue → String
  | .B _ => ""
  | .S _ => "a string"
  | .N _ => "a number"
  | .Bool _ => "a boolean"

/-- Result type of the embedded `extract_key`: an explicit `panicked` outcome
models the Rust slice indexing `&blob[prefix_len..]` going out of bounds. -/
inductive ExtractResult where
  | ok (b : Bytes)
  | err (e : Err)
  | panicked
deriving DecidableEq

/-- Embeds `extract_key`: looks up the `item_key` attribute, fails with
`MissingKey` when absent and `WrongKeyType` when not a binary blob, and
otherwise returns the blob's suffix after the first `prefix_len` bytes;
`&blob[prefix_len..]` panics when `prefix_len` exceeds the blob length. -/
def extract_key (prefix_len : Nat) (attributes : List (String × AttributeValue)) :
    ExtractResult :=
  match attributes.lookup KEY_ATTRIBUTE with
  | none => .err .MissingKey
  | some (.B blob) =>
      if prefix_len ≤ blob.length then .ok (blob.drop prefix_len) else .panicked
  | some v => .err (.WrongKeyType (typeDescriptionOf v))

/-- Modelled from the spec: `read_key::<T>` (defined in the `common` module,
which is not part of this file's source) performs a point read of the key and
deserializes the stored bytes with the stable binary codec; here the variant
that expects a `DynamoDbBatch` block entry.  An absent key yields `none`; a
stored value of a different shape is a codec failure. -/
def read_key_batch (s : Store) (key : Bytes) : Except Err (Option SimpleUnorderedBatch) :=
  match storeGet s key with
  | none => .ok none
  | some (.batch b) => .ok (some b)
  | some _ => .error .BcsError

/-- Modelled from the spec: `read_key::<JournalHeader>`, the variant of the
point read that deserializes a journal header. -/
def read_key_header (s : Store) (key : Bytes) : Except Err (Option JournalHeader) :=
  match storeGet s key with
  | none => .ok none
  | some (.header h) => .ok (some h)
  | some _ => .error .BcsError

/-- Embeds `DynamoDbBatch::add_journal_header_operations`: appends a put of the
serialized header when `block_count > 0` and a delete of the header key
otherwise. -/
def add_journal_header_operations (tb : TransactionBuilder) (header : JournalHeader)
    (base_key : Bytes) : Except Err TransactionBuilder :=
  let key := get_journaling_key base_key keyTagJournal 0
  if header.block_count > 0 then insPut tb key (.header header)
  else insDel tb key

/-- The `for delete in value.0.deletions` loop of the replay step and of
`write_fastpath_failsafe`: insert a delete request per key, stopping at the
first error. -/
def addDeleteRequests : TransactionBuilder → List Bytes → Except Err TransactionBuilder
  | tb, [] => .ok tb
  | tb, k :: rest =>
      match insDel tb k with
      | .error e => .error e
      | .ok tb2 => addDeleteRequests tb2 rest

/-- The `for key_value in value.0.insertions` loop: insert a put request per
key/value pair, stopping at the first error. -/
def addPutRequests : TransactionBuilder → List (Bytes × Bytes) → Except Err TransactionBuilder
  | tb, [] => .ok tb
  | tb, kv :: rest =>
      match insPut tb kv.1 (.bytes kv.2) with
      | .error e => .error e
      | .ok tb2 => addPutRequests tb2 rest

/-- The body of the `coherently_resolve_journal` loop for a current
`block_count` of `n + 1`: read entry `n` (`DatabaseRecoveryFailed` when
missing), build one transaction holding the delete of the entry, the
payload's deletes, the payload's puts and the header update for the count
decremented to `n`, and submit it.  Returns the table after the transaction
and the transaction submitted. -/
def resolveStep (base_key : Bytes) (n : Nat) (s : Store) :
    Except Err (Store × List WriteOp) :=
  let key := get_journaling_key base_key keyTagEntry n
  match read_key_batch s key with
  | .error e => .error e
  | .ok none => .error .DatabaseRecoveryFailed
  | .ok (some value) =>
      match insDel [] key with
      | .error e => .error e
      | .ok tb1 =>
          match addDeleteRequests tb1 value.deletions with
          | .error e => .error e
          | .ok tb2 =>
              match addPutRequests tb2 value.insertions with
              | .error e => .error e
              | .ok tb3 =>
                  match add_journal_header_operations tb3 ⟨n⟩ base_key with
                  | .error e => .error e
                  | .ok tb4 =>
                      match submit tb4 s with
                      | .error e => .error e
                      | .ok (s2, _) => .ok (s2, tb4)

/-- Embeds `JournalHeader::coherently_resolve_journal`: drains blocks highest index
first, one `resolveStep` per remaining block, until `block_count` is zero.
The result records the final table state and the trace of submitted
transactions, in order. -/
def coherently_resolve_journal (base_key : Bytes) :
    Nat → Store → Except Err (Store × List (List WriteOp))
  | 0, s => .ok (s, [])
  | n + 1, s =>
      match resolveStep base_key n s with
      | .error e => .error e
      | .ok (s2, txn) =>
          match coherently_resolve_journal base_key n s2 with
          | .error e => .error e
          | .ok (s3, tr) => .ok (s3, txn :: tr)

/-- Embeds `DynamoDbClientInternal::clear_journal`: reads the header under `base_key`;
if present, resolves the journal; if absent, does nothing. -/
def clear_journal (s : Store) (base_key : Bytes) :
    Except Err (Store × List (List WriteOp)) :=
  let key := get_journaling_key base_key keyTagJournal 0
  match read_key_header s key with
  | .error e => .error e
  | .ok none => .ok (s, [])
  | .ok (some header) => coherently_resolve_journal base_key header.block_count s

/-- Embeds `DynamoDbClientInternal::write_single_key_value`: a one-put transaction. -/
def write_single_key_value (s : Store) (key : Bytes) (value : StoredValue) :
    Except Err Store :=
  match insPut [] key value with
  | .error e => .error e
  | .ok tb =>
      match submit tb s with
      | .error e => .error e
      | .ok (s2, _) => .ok s2

/-- One operation of the concatenation `deletions ‖ insertions` walked by
`write_journal`. -/
inductive JOp where
  | del (k : Bytes)
  | ins (kv : Bytes × Bytes)
deriving DecidableEq

/-- The byte size `write_journal` accounts for one operation: key length for a
delete, key plus value length for an insertion. -/
def jopSize : JOp → Nat
  | .del k => k.length
  | .ins kv => kv.1.length + kv.2.length

/-- The concatenation `deletions ‖ insertions` in the order the source
indexes it (`i < delete_count` selects a deletion). -/
def jops (b : SimpleUnorderedBatch) : List JOp :=
  b.deletions.map JOp.del ++ b.insertions.map JOp.ins

/-- Appending one walked operation to the current block accumulators
(`deletions.push` / `insertions.push`). -/
def pushOp (acc : SimpleUnorderedBatch) : JOp → SimpleUnorderedBatch
  | .del k => ⟨acc.deletions ++ [k], acc.insertions⟩
  | .ins kv => ⟨acc.deletions, acc.insertions ++ [kv]⟩

/-- The flush decision of `write_journal` after appending operation `i`:
flush when this was the last operation, or `curr_len` reached
`MAX_TRANSACT_WRITE_ITEM_SIZE - 2`, or the next operation's size would push
`curr_size` above `MAX_BATCH_WRITE_ITEM_BYTES`.  `rest` is the list of
operations after `i`, so `rest.isEmpty` is `i == total_count - 1`. -/
def doFlush (rest : List JOp) (curr_len curr_size : Nat) : Bool :=
  if rest.isEmpty || curr_len == MAX_TRANSACT_WRITE_ITEM_SIZE - 2 then true
  else
    match rest with
    | [] => true
    | next :: _ => decide (curr_size + jopSize next > MAX_BATCH_WRITE_ITEM_BYTES)

/-- The loop of `write_journal`: walks the remaining operations with the
current byte size, operation count, block accumulator and block count,
writing each flushed block under its entry key.  Returns the final state, the
trace of single-key journal writes in order, and the final block count. -/
def write_journal_loop (base_key : Bytes) :
    List JOp → Store → Nat → Nat → SimpleUnorderedBatch → Nat →
    Except Err (Store × List (Bytes × StoredValue) × Nat)
  | [], s, _, _, _, block_count => .ok (s, [], block_count)
  | op :: rest, s, curr_size, curr_len, acc, block_count =>
      let curr_len2 := curr_len + 1
      let curr_size2 := curr_size + jopSize op
      let acc2 := pushOp acc op
      if doFlush rest curr_len2 curr_size2 then
        let key := get_journaling_key base_key keyTagEntry block_count
        match write_single_key_value s key (.batch acc2) with
        | .error e => .error e
        | .ok s2 =>
            match write_journal_loop base_key rest s2 0 0 ⟨[], []⟩ (block_count + 1) with
            | .error e => .error e
            | .ok (s3, tr, bc) => .ok (s3, (key, .batch acc2) :: tr, bc)
      else write_journal_loop base_key rest s curr_size2 curr_len2 acc2 block_count

/-- Embeds `DynamoDbBatch::write_journal`: chunk the batch into blocks, then, if at
least one block was produced, write the header last; returns the header with
`block_count` set to the number of flushes. -/
def write_journal (s : Store) (b : SimpleUnorderedBatch) (base_key : Bytes) :
    Except Err (Store × List (Bytes × StoredValue) × JournalHeader) :=
  match write_journal_loop base_key (jops b) s 0 0 ⟨[], []⟩ 0 with
  | .error e => .error e
  | .ok (s2, tr, block_count) =>
      let header : JournalHeader := ⟨block_count⟩
      if block_count > 0 then
        let key := get_journaling_key base_key keyTagJournal 0
        match write_single_key_value s2 key (.header header) with
        | .error e => .error e
        | .ok s3 => .ok (s3, tr ++ [(key, .header header)], header)
      else .ok (s2, tr, header)

/-- Embeds `DynamoDbBatch::len`: the total number of operations. -/
def batchLen (b : SimpleUnorderedBatch) : Nat :=
  b.deletions.length + b.insertions.length

/-- Embeds `DynamoDbBatch::is_fastpath_feasible`. -/
def is_fastpath_feasible (b : SimpleUnorderedBatch) : Bool :=
  decide (batchLen b ≤ MAX_TRANSACT_WRITE_ITEM_SIZE)

/-- Embeds `DynamoDbBatch::write_fastpath_failsafe`: one transaction holding every
delete then every put, submitted once. -/
def write_fastpath_failsafe (s : Store) (b : SimpleUnorderedBatch) :
    Except Err (Store × Option (List WriteOp)) :=
  match addDeleteRequests [] b.deletions with
  | .error e => .error e
  | .ok tb =>
      match addPutRequests tb b.insertions with
      | .error e => .error e
      | .ok tb2 => submit tb2 s

/-- Which of the two write paths `write_batch` took. -/
inductive PathTaken where
  | fast
  | journaled
deriving DecidableEq

/-- Embeds `DynamoDbClientInternal::write_batch` on an already normalized batch
(normalization, `from_batch`, lives in the external `batch` module): the fast
path when feasible, otherwise `write_journal` followed by
`coherently_resolve_journal` on the returned header. -/
def write_batch (s : Store) (b : SimpleUnorderedBatch) (base_key : Bytes) :
    Except Err (Store × PathTaken) :=
  if is_fastpath_feasible b then
    match write_fastpath_failsafe s b with
    | .error e => .error e
    | .ok (s2, _) => .ok (s2, .fast)
  else
    match write_journal s b base_key with
    | .error e => .error e
    | .ok (s2, _, header) =>
        match coherently_resolve_journal base_key header.block_count s2 with
        | .error e => .error e
        | .ok (s3, _) => .ok (s3, .journaled)

/-- Embeds `DynamoDbClientInternal::read_key_bytes`: point read of one key; an item
present in the table yields the byte image of its value attribute. -/
def read_key_bytes (s : Store) (key : Bytes) : Except Err (Option Bytes) :=
  match storeGet s key with
  | none => .ok none
  | some v => .ok (some (storedBytes v))

/-- Embeds `DynamoDbClientInternal::read_multi_key_bytes`: one point read per input
key; `join_all` keeps the results in the order of the futures, i.e. the order
of the input keys, and `collect` stops at the first error. -/
def read_multi_key_bytes (s : Store) : List Bytes → Except Err (List (Option Bytes))
  | [] => .ok []
  | key :: rest =>
      match read_key_bytes s key with
      | .error e => .error e
      | .ok v =>
          match read_multi_key_bytes s rest with
          | .error e => .error e
          | .ok vs => .ok (v :: vs)

/-- The chunk decomposition described by the spec's chunking algorithm: walk
the concatenation `deletions ‖ insertions` accumulating a block, and cut the
block after the operation on which the flush condition holds. -/
def specChunksGo : List JOp → Nat → Nat → SimpleUnorderedBatch → List SimpleUnorderedBatch
  | [], _, _, _ => []
  | op :: rest, curr_size, curr_len, acc =>
      let curr_len2 := curr_len + 1
      let curr_size2 := curr_size + jopSize op
      let acc2 := pushOp acc op
      if doFlush rest curr_len2 curr_size2 then acc2 :: specChunksGo rest 0 0 ⟨[], []⟩
      else specChunksGo rest curr_size2 curr_len2 acc2

/-- The blocks `write_journal` should produce for a batch, per the spec's
chunking algorithm. -/
def specChunks (b : SimpleUnorderedBatch) : List SimpleUnorderedBatch :=
  specChunksGo (jops b) 0 0 ⟨[], []⟩

/-- The header operation of one replay step: a put of the decremented header
when blocks remain, a delete of the header key otherwise. -/
def headerOp (base_key : Bytes) (i : Nat) : WriteOp :=
  if i > 0 then .put (get_journaling_key base_key keyTagJournal 0) (.header ⟨i⟩)
  else .del (get_journaling_key base_key keyTagJournal 0)

/-- The transaction submitted by one replay step draining entry `i` with
payload `blk`: the delete of entry `i`, the payload's deletes, the payload's
puts, and the header operation for `block_count := i`. -/
def stepTxn (base_key : Bytes) (i : Nat) (blk : SimpleUnorderedBatch) : List WriteOp :=
  .del (get_journaling_key base_key keyTagEntry i) ::
    (blk.deletions.map WriteOp.del ++
      blk.insertions.map (fun kv => WriteOp.put kv.1 (.bytes kv.2)) ++
        [headerOp base_key i])

/-- The big-endian 4-byte u32 encoding named `be_u32` by the spec ("the u32
index is encoded big-endian"); defined from the spec's words, for comparison
with the source's key codec. -/
def beU32 (n : Nat) : Bytes :=
  [n / 16777216 % 256, n / 65536 % 256, n / 256 % 256, n % 256]

/-- The byte size of a transaction, counting for each operation its key bytes
plus (for a put) its value bytes, the measure tracked by `curr_size`. -/
def txnByteSize (ops : List WriteOp) : Nat :=
  (ops.map (fun op =>
    match op with
    | .put k v => k.length + storedLen v
    | .del k => k.length)).sum

/-- The journal entry writes corresponding to a list of blocks, keyed from a
starting block index upward. -/
def entryWrites (base_key : Bytes) : Nat → List SimpleUnorderedBatch → List (Bytes × StoredValue)
  | _, [] => []
  | n, blk :: rest =>
      (get_journaling_key base_key keyTagEntry n, .batch blk) :: entryWrites base_key (n + 1) rest

/-- A value of the maximal allowed length `MAX_VALUE_BYTES`. -/
def bigVal : Bytes := List.replicate 409600 0

/-- A normalized batch of 100 insertions, each with a 1-byte key and the
maximal-size value `bigVal`. -/
def bigBatch : SimpleUnorderedBatch :=
  ⟨[], (List.range 100).map (fun i => ([i + 1], bigVal))⟩

/-- The operations of the single fast-path transaction for `bigBatch`. -/
def bigOps : List WriteOp :=
  (List.range 100).map (fun i => .put [i + 1] (.bytes bigVal))

/-! ## Basic lemmas on the store, the builder chains and the key codec -/

theorem storedLen_bytes (b : Bytes) : storedLen (.bytes b) = b.length := rfl

theorem bigVal_length : bigVal.length = 409600 := List.length_replicate 409600 0

theorem storedLen_header (h : JournalHeader) : storedLen (.header h) = 4 := rfl

theorem journaling_key_ne_nil (base_key : Bytes) (tag pos : Nat) :
    get_journaling_key base_key tag pos ≠ [] := by
  simp [get_journaling_key]

theorem applyOps_append (s : Store) (l1 l2 : List WriteOp) :
    applyOps s (l1 ++ l2) = applyOps (applyOps s l1) l2 := by
  simp [applyOps, List.foldl_append]

theorem storeGet_del_self (s : Store) (k : Bytes) : storeGet (storeDel s k) k = none := by
  induction s with
  | nil => rfl
  | cons p rest ih =>
      obtain ⟨k2, v⟩ := p
      by_cases h : k2 = k
      · simpa [storeDel, h] using ih
      · have h2 : ¬k = k2 := fun hh => h hh.symm
        simp [storeDel, h, storeGet, h2, ih]

theorem storeGet_put_self (s : Store) (k : Bytes) (v : StoredValue) :
    storeGet (storePut s k v) k = some v := by
  simp [storePut, storeGet]

theorem insDel_ok (tb : TransactionBuilder) (k : Bytes) (h : k ≠ []) :
    insDel tb k = .ok (tb ++ [.del k]) := by
  simp [insDel, insert_delete_request, h]

theorem insPut_ok (tb : TransactionBuilder) (k : Bytes) (v : StoredValue)
    (h : k ≠ []) (hv : storedLen v ≤ MAX_VALUE_BYTES) :
    insPut tb k v = .ok (tb ++ [.put k v]) := by
  simp [insPut, insert_put_request, h, Nat.not_lt.mpr hv]

theorem addDeleteRequests_ok (l : List Bytes) (tb : TransactionBuilder)
    (h : ∀ k ∈ l, k ≠ []) :
    addDeleteRequests tb l = .ok (tb ++ l.map WriteOp.del) := by
  induction l generalizing tb with
  | nil => simp [addDeleteRequests]
  | cons k rest ih =>
      have hk := insDel_ok tb k (h k (by simp))
      have ihh := ih (tb ++ [.del k]) (fun x hx => h x (by simp [hx]))
      simp [addDeleteRequests, hk, ihh]

theorem addPutRequests_ok (l : List (Bytes × Bytes)) (tb : TransactionBuilder)
    (h : ∀ kv ∈ l, kv.1 ≠ [] ∧ kv.2.length ≤ MAX_VALUE_BYTES) :
    addPutRequests tb l =
      .ok (tb ++ l.map (fun kv => WriteOp.put kv.1 (.bytes kv.2))) := by
  induction l generalizing tb with
  | nil => simp [addPutRequests]
  | cons kv rest ih =>
      obtain ⟨h1, h2⟩ := h kv (by simp)
      have hk := insPut_ok tb kv.1 (.bytes kv.2) h1 (by simpa [storedLen_bytes] using h2)
      have ihh := ih (tb ++ [.put kv.1 (.bytes kv.2)]) (fun x hx => h x (by simp [hx]))
      simp [addPutRequests, hk, ihh]

theorem add_header_ok (tb : TransactionBuilder) (base_key : Bytes) (n : Nat) :
    add_journal_header_operations tb ⟨n⟩ base_key = .ok (tb ++ [headerOp base_key n]) := by
  unfold add_journal_header_operations headerOp
  by_cases hn : 0 < n
  · rw [if_pos hn, if_pos hn,
      insPut_ok _ _ _ (journaling_key_ne_nil _ _ _) (by rw [storedLen_header]; decide)]
  · rw [if_neg hn, if_neg hn, insDel_ok _ _ (journaling_key_ne_nil _ _ _)]

theorem submit_ok_of_small (tb : TransactionBuilder) (s : Store)
    (h1 : tb ≠ []) (h2 : tb.length ≤ MAX_TRANSACT_WRITE_ITEM_SIZE) :
    submit tb s = .ok (applyOps s tb, some tb) := by
  rw [submit, if_neg (Nat.not_lt.mpr h2), if_neg h1]

theorem write_fastpath_failsafe_eq (s : Store) (b : SimpleUnorderedBatch)
    (hdel : ∀ k ∈ b.deletions, k ≠ [])
    (hins : ∀ kv ∈ b.insertions, kv.1 ≠ [] ∧ kv.2.length ≤ MAX_VALUE_BYTES) :
    write_fastpath_failsafe s b =
      submit (b.deletions.map WriteOp.del ++
        b.insertions.map (fun kv => WriteOp.put kv.1 (.bytes kv.2))) s := by
  simp only [write_fastpath_failsafe, addDeleteRequests_ok b.deletions [] hdel,
    List.nil_append, addPutRequests_ok b.insertions (b.deletions.map WriteOp.del) hins]

/-! ## C1: the journaling key codec -/

/-- C1 (counterexample): the claim's key shapes fail on the code.  Block
entry 1 under an empty base key is keyed with the little-endian bcs
serialization `[1, 0, 0, 0]` of the index, not the claimed big-endian
`be_u32(1) = [0, 0, 0, 1]`; and the header key is not the bare
`base_key ‖ JOURNAL_TAG ‖ 1`: it carries the serialized index `0`. -/
theorem C1_bigendian_counterexample :
    get_journaling_key [] keyTagEntry 1 ≠ [] ++ [JOURNAL_TAG] ++ [keyTagEntry] ++ beU32 1 ∧
    get_journaling_key [] keyTagJournal 0 ≠ [] ++ [JOURNAL_TAG] ++ [keyTagJournal] := by
  decide

/-- C1 (amended): for every `base_key` and index `pos < 2^32`, the journaling
key is `base_key ‖ JOURNAL_TAG ‖ tag ‖ le_u32(pos)` with the u32 index
encoded little-endian (4 fixed bytes, bcs); the encoding is deterministic and
round-trip stable (the decoder inverts it and it is injective below 2^32).
The header key (`tag = 1`) carries the fixed suffix `le_u32(0)`. -/
theorem C1_journaling_key_codec (base_key : Bytes) (tag pos : Nat)
    (h : pos < 4294967296) :
    get_journaling_key base_key tag pos = base_key ++ [JOURNAL_TAG, tag] ++ leU32 pos ∧
    decodeLeU32 (leU32 pos) = pos ∧
    ∀ q, q < 4294967296 → leU32 q = leU32 pos → q = pos := by
  refine ⟨by simp [get_journaling_key], ?_, ?_⟩
  · simp only [leU32, decodeLeU32]
    omega
  · intro q hq he
    have h1 : decodeLeU32 (leU32 q) = q := by
      simp only [leU32, decodeLeU32]
      omega
    have h2 : decodeLeU32 (leU32 pos) = pos := by
      simp only [leU32, decodeLeU32]
      omega
    rw [he, h2] at h1
    omega

/-- C1 witness: the codec theorem applied at a concrete base key and index. -/
theorem C1_journaling_key_codec_witness :
    get_journaling_key [9] 2 258 = [9] ++ [JOURNAL_TAG, 2] ++ leU32 258 ∧
    decodeLeU32 (leU32 258) = 258 ∧
    ∀ q, q < 4294967296 → leU32 q = leU32 258 → q = 258 :=
  C1_journaling_key_codec [9] 2 258 (by decide)

/-! ## C6: validation in the transaction builder's insert operations -/

/-- C6: `insert_delete_request` and `insert_put_request` reject an empty key
with `ZeroLengthKey`, and `insert_put_request` rejects a value longer than
`MAX_VALUE_BYTES` with `ValueLengthTooLarge`; in each case the error is
returned with the accumulator unchanged, so no operation is recorded and no
backend call can carry it. -/
theorem C6_insert_request_validation (tb : TransactionBuilder) (key : Bytes)
    (value : StoredValue) :
    (key = [] →
      insert_delete_request tb key = (tb, some .ZeroLengthKey) ∧
      insert_put_request tb key value = (tb, some .ZeroLengthKey)) ∧
    (key ≠ [] → MAX_VALUE_BYTES < storedLen value →
      insert_put_request tb key value = (tb, some .ValueLengthTooLarge)) := by
  constructor
  · intro h
    subst h
    exact ⟨by simp [insert_delete_request], by simp [insert_put_request]⟩
  · intro h hv
    simp [insert_put_request, h, hv]

/-- C6 witness: the validation theorem applied to an empty key and to an
oversize value (length 409601 > `MAX_VALUE_BYTES`). -/
theorem C6_insert_request_validation_witness :
    insert_delete_request [] [] = ([], some .ZeroLengthKey) ∧
    insert_put_request [] [] (.bytes [1]) = ([], some .ZeroLengthKey) ∧
    insert_put_request [] [5] (.bytes (List.replicate 409601 0)) =
      ([], some .ValueLengthTooLarge) :=
  ⟨((C6_insert_request_validation [] [] (.bytes [1])).1 rfl).1,
   ((C6_insert_request_validation [] [] (.bytes [1])).1 rfl).2,
   (C6_insert_request_validation [] [5] (.bytes (List.replicate 409601 0))).2
     (by simp) (by rw [storedLen_bytes, List.length_replicate]; decide)⟩

/-! ## C7: submit's ceiling, empty no-op and single call -/

/-- C7: `submit` fails with `TransactUpperLimitSize` before any network call
when the accumulated count exceeds `MAX_TRANSACT_WRITE_ITEM_SIZE`; an empty
accumulator is a no-op with no network call; otherwise exactly one atomic
multi-item write is issued, carrying the accumulated operations. -/
theorem C7_submit_behaviour (tb : TransactionBuilder) (s : Store) :
    (MAX_TRANSACT_WRITE_ITEM_SIZE < tb.length →
      submit tb s = .error .TransactUpperLimitSize) ∧
    (tb = [] → submit tb s = .ok (s, none)) ∧
    (tb ≠ [] → tb.length ≤ MAX_TRANSACT_WRITE_ITEM_SIZE →
      submit tb s = .ok (applyOps s tb, some tb)) := by
  refine ⟨fun h => ?_, fun h => ?_, fun h1 h2 => submit_ok_of_small tb s h1 h2⟩
  · rw [submit, if_pos h]
  · subst h
    rfl

/-- C7 witness: the submit theorem applied to a 101-operation accumulator, to
the empty accumulator, and to a singleton accumulator. -/
theorem C7_submit_behaviour_witness :
    submit (List.replicate 101 (WriteOp.del [1])) [] = .error .TransactUpperLimitSize ∧
    submit [] [] = .ok ([], none) ∧
    submit [.del [1]] [] = .ok (applyOps [] [.del [1]], some [.del [1]]) :=
  ⟨(C7_submit_behaviour (List.replicate 101 (WriteOp.del [1])) []).1
     (by simp [MAX_TRANSACT_WRITE_ITEM_SIZE]),
   (C7_submit_behaviour [] []).2.1 rfl,
   (C7_submit_behaviour [.del [1]] []).2.2 (by simp) (by simp [MAX_TRANSACT_WRITE_ITEM_SIZE])⟩

/-! ## C10: extract_key -/

/-- C10: `extract_key` returns `MissingKey` when the key attribute is absent,
`WrongKeyType` (with the offending type's description) when present but not a
binary blob, and the blob's suffix after the first `prefix_len` bytes when the
blob has length at least `prefix_len`; for a shorter blob the slice indexing
is out of bounds and the embedding's panic branch is taken. -/
theorem C10_extract_key_cases (prefix_len : Nat)
    (attributes : List (String × AttributeValue)) :
    (attributes.lookup KEY_ATTRIBUTE = none →
      extract_key prefix_len attributes = .err .MissingKey) ∧
    (∀ v, attributes.lookup KEY_ATTRIBUTE = some v → (∀ b, v ≠ .B b) →
      extract_key prefix_len attributes = .err (.WrongKeyType (typeDescriptionOf v))) ∧
    (∀ blob, attributes.lookup KEY_ATTRIBUTE = some (.B blob) →
      prefix_len ≤ blob.length →
      extract_key prefix_len attributes = .ok (blob.drop prefix_len)) ∧
    (∀ blob, attributes.lookup KEY_ATTRIBUTE = some (.B blob) →
      blob.length < prefix_len →
      extract_key prefix_len attributes = .panicked) := by
  refine ⟨fun h => ?_, fun v hv hvB => ?_, fun blob hb hle => ?_, fun blob hb hlt => ?_⟩
  · simp [extract_key, h]
  · cases v with
    | B b => exact absurd rfl (hvB b)
    | S s => simp [extract_key, hv]
    | N s => simp [extract_key, hv]
    | Bool b => simp [extract_key, hv]
  · simp [extract_key, hb, hle]
  · simp [extract_key, hb, Nat.not_le.mpr hlt]

/-- C10 witness: the four cases of `extract_key` at concrete attribute maps. -/
theorem C10_extract_key_cases_witness :
    extract_key 1 [] = .err .MissingKey ∧
    extract_key 1 [(KEY_ATTRIBUTE, .S "x")] = .err (.WrongKeyType "a string") ∧
    extract_key 1 [(KEY_ATTRIBUTE, .B [7, 8])] = .ok [8] ∧
    extract_key 3 [(KEY_ATTRIBUTE, .B [7, 8])] = .panicked :=
  ⟨(C10_extract_key_cases 1 []).1 (by decide),
   (C10_extract_key_cases 1 [(KEY_ATTRIBUTE, .S "x")]).2.1 (.S "x") (by decide)
     (fun b => by simp),
   (C10_extract_key_cases 1 [(KEY_ATTRIBUTE, .B [7, 8])]).2.2.1 [7, 8] (by decide) (by decide),
   (C10_extract_key_cases 3 [(KEY_ATTRIBUTE, .B [7, 8])]).2.2.2 [7, 8] (by decide) (by decide)⟩

/-! ## Replay lemmas -/

theorem stepTxn_shape (base_key : Bytes) (n : Nat) (blk : SimpleUnorderedBatch) :
    [WriteOp.del (get_journaling_key base_key keyTagEntry n)] ++
        blk.deletions.map WriteOp.del ++
        blk.insertions.map (fun kv => WriteOp.put kv.1 (.bytes kv.2)) ++
        [headerOp base_key n] =
      stepTxn base_key n blk := by
  simp [stepTxn]

theorem stepTxn_length (base_key : Bytes) (n : Nat) (blk : SimpleUnorderedBatch) :
    (stepTxn base_key n blk).length = batchLen blk + 2 := by
  simp [stepTxn, batchLen]
  omega

theorem resolveStep_eq (base_key : Bytes) (n : Nat) (s : Store) (blk : SimpleUnorderedBatch)
    (hread : storeGet s (get_journaling_key base_key keyTagEntry n) = some (.batch blk))
    (hdel : ∀ k ∈ blk.deletions, k ≠ [])
    (hins : ∀ kv ∈ blk.insertions, kv.1 ≠ [] ∧ kv.2.length ≤ MAX_VALUE_BYTES)
    (hlen : batchLen blk + 2 ≤ MAX_TRANSACT_WRITE_ITEM_SIZE) :
    resolveStep base_key n s =
      .ok (applyOps s (stepTxn base_key n blk), stepTxn base_key n blk) := by
  have hkey : read_key_batch s (get_journaling_key base_key keyTagEntry n) = .ok (some blk) := by
    simp [read_key_batch, hread]
  have h1 := insDel_ok [] (get_journaling_key base_key keyTagEntry n)
    (journaling_key_ne_nil _ _ _)
  have h2 := addDeleteRequests_ok blk.deletions
    ([] ++ [.del (get_journaling_key base_key keyTagEntry n)]) hdel
  have h3 := addPutRequests_ok blk.insertions
    ([] ++ [.del (get_journaling_key base_key keyTagEntry n)] ++ blk.deletions.map .del) hins
  have h4 := add_header_ok
    ([] ++ [.del (get_journaling_key base_key keyTagEntry n)] ++ blk.deletions.map .del ++
      blk.insertions.map (fun kv => WriteOp.put kv.1 (.bytes kv.2))) base_key n
  have hform : ([] ++ [WriteOp.del (get_journaling_key base_key keyTagEntry n)] ++
      blk.deletions.map WriteOp.del ++
      blk.insertions.map (fun kv => WriteOp.put kv.1 (.bytes kv.2)) ++
      [headerOp base_key n]) = stepTxn base_key n blk := by
    simp [stepTxn]
  have hne : stepTxn base_key n blk ≠ [] := by
    simp [stepTxn]
  have hsub := submit_ok_of_small (stepTxn base_key n blk) s hne
    (by rw [stepTxn_length]; exact hlen)
  rw [hform] at h4
  simp only [resolveStep, hkey, h1, h2, h3, h4, hsub]

theorem resolveStep_inv (base_key : Bytes) (n : Nat) (s s2 : Store) (txn : List WriteOp)
    (h : resolveStep base_key n s = .ok (s2, txn)) :
    s2 = applyOps s txn ∧ ∃ tb3, txn = tb3 ++ [headerOp base_key n] := by
  simp only [resolveStep,
    insDel_ok [] _ (journaling_key_ne_nil base_key keyTagEntry n)] at h
  repeat' split at h
  all_goals try cases h
  rename_i tbP hputs x1 x0 snd2 hhdr hsub
  rw [add_header_ok tbP base_key n] at hhdr
  injection hhdr with hhdr
  subst hhdr
  refine ⟨?_, tbP, rfl⟩
  rw [submit] at hsub
  split_ifs at hsub with h1 h2
  · exact absurd h2 (by simp)
  · injection hsub with hsub
    injection hsub with ha hb
    exact ha.symm

theorem resolveStep_missing (base_key : Bytes) (n : Nat) (s : Store)
    (h : storeGet s (get_journaling_key base_key keyTagEntry n) = none) :
    resolveStep base_key n s = .error .DatabaseRecoveryFailed := by
  simp [resolveStep, read_key_batch, h]

theorem resolve_header_absent (base_key : Bytes) :
    ∀ n s s2 tr, 0 < n →
      coherently_resolve_journal base_key n s = .ok (s2, tr) →
      storeGet s2 (get_journaling_key base_key keyTagJournal 0) = none := by
  intro n
  induction n with
  | zero => intro s s2 tr h0 _; exact absurd h0 (by omega)
  | succ m ih =>
      intro s s2 tr h0 h
      simp only [coherently_resolve_journal] at h
      split at h
      · cases h
      · rename_i s1 txn hstep
        split at h
        · cases h
        · rename_i s3 tr1 hrec
          cases h
          by_cases hm : 0 < m
          · exact ih s1 _ _ hm hrec
          · have hm0 : m = 0 := by omega
            subst hm0
            simp only [coherently_resolve_journal] at hrec
            injection hrec with hrec
            injection hrec with ha hb
            obtain ⟨hs1, tb3, htxn⟩ := resolveStep_inv base_key 0 s s1 txn hstep
            subst htxn
            rw [← ha, hs1, applyOps_append]
            have hop : headerOp base_key 0 = .del (get_journaling_key base_key keyTagJournal 0) := by
              simp [headerOp]
            simp [applyOps, applyOp, hop, storeGet_del_self]

/-! ## C3: the replay algorithm -/

/-- C3: for a header with `block_count = n + 1 > 0`, replay reads entry `n`
and fails with `DatabaseRecoveryFailed` when it is missing; when entry `n`
holds a block `blk` (with well-formed keys and values, and fitting the
transaction ceiling), the step submits exactly the transaction
`stepTxn`: the delete of entry `n`, the payload's deletes, the payload's
puts, and the header put with `block_count := n` when `n > 0` or the header
delete when `n = 0`, then recurses on the updated table; and a completed
replay of a positive block count leaves the table without a journal header. -/
theorem C3_coherently_resolve_journal (base_key : Bytes) :
    (∀ n s, storeGet s (get_journaling_key base_key keyTagEntry n) = none →
      coherently_resolve_journal base_key (n + 1) s = .error .DatabaseRecoveryFailed) ∧
    (∀ n s blk, storeGet s (get_journaling_key base_key keyTagEntry n) = some (.batch blk) →
      (∀ k ∈ blk.deletions, k ≠ []) →
      (∀ kv ∈ blk.insertions, kv.1 ≠ [] ∧ kv.2.length ≤ MAX_VALUE_BYTES) →
      batchLen blk + 2 ≤ MAX_TRANSACT_WRITE_ITEM_SIZE →
      coherently_resolve_journal base_key (n + 1) s =
        match coherently_resolve_journal base_key n (applyOps s (stepTxn base_key n blk)) with
        | .error e => .error e
        | .ok (s3, tr) => .ok (s3, stepTxn base_key n blk :: tr)) ∧
    (∀ n s s2 tr, 0 < n →
      coherently_resolve_journal base_key n s = .ok (s2, tr) →
      storeGet s2 (get_journaling_key base_key keyTagJournal 0) = none) := by
  refine ⟨fun n s hmiss => ?_, fun n s blk hread hdel hins hlen => ?_,
    resolve_header_absent base_key⟩
  · simp only [coherently_resolve_journal, resolveStep_missing base_key n s hmiss]
  · simp only [coherently_resolve_journal,
      resolveStep_eq base_key n s blk hread hdel hins hlen]

/-! ## C8: clear_journal is a no-op on a clean region and idempotent -/

/-- C8: `clear_journal` leaves the table unchanged and submits no replay
transaction when no journal header exists under the base key; and whenever a
`clear_journal` call succeeds, a second call on the resulting state succeeds,
changes nothing and replays nothing, so two calls in sequence produce the
same final state as one. -/
theorem C8_clear_journal_idempotent (base_key : Bytes) :
    (∀ s, storeGet s (get_journaling_key base_key keyTagJournal 0) = none →
      clear_journal s base_key = .ok (s, [])) ∧
    (∀ s s2 tr, clear_journal s base_key = .ok (s2, tr) →
      clear_journal s2 base_key = .ok (s2, [])) := by
  constructor
  · intro s h
    simp [clear_journal, read_key_header, h]
  · intro s s2 tr h
    simp only [clear_journal] at h
    split at h
    · cases h
    · cases h
      rename_i hread
      simp only [clear_journal, hread]
    · rename_i hdr hread
      cases hbc : hdr.block_count with
      | zero =>
          rw [hbc] at h
          simp only [coherently_resolve_journal] at h
          injection h with h
          injection h with ha hb
          subst ha
          simp only [clear_journal, hread, hbc, coherently_resolve_journal]
      | succ m =>
          have habs := resolve_header_absent base_key (m + 1) s s2 tr (by omega)
            (by rw [← hbc]; exact h)
          simp [clear_journal, read_key_header, habs]

/-- C3 witness: the replay theorem applied to a one-block journal under base
key `[7]`: a missing entry fails, a present entry is drained by the stated
step transaction, and the drained table holds no header. -/
theorem C3_coherently_resolve_journal_witness :
    coherently_resolve_journal [7] 1 [] = .error .DatabaseRecoveryFailed ∧
    (coherently_resolve_journal [7] 1
        [(get_journaling_key [7] keyTagEntry 0, .batch ⟨[[3]], [([4], [5])]⟩),
         ([3], .bytes [9])] =
      match coherently_resolve_journal [7] 0
          (applyOps
            [(get_journaling_key [7] keyTagEntry 0, .batch ⟨[[3]], [([4], [5])]⟩),
             ([3], .bytes [9])]
            (stepTxn [7] 0 ⟨[[3]], [([4], [5])]⟩)) with
      | .error e => .error e
      | .ok (s3, tr) => .ok (s3, stepTxn [7] 0 ⟨[[3]], [([4], [5])]⟩ :: tr)) ∧
    storeGet [([4], .bytes [5])] (get_journaling_key [7] keyTagJournal 0) = none :=
  ⟨(C3_coherently_resolve_journal [7]).1 0 [] rfl,
   (C3_coherently_resolve_journal [7]).2.1 0
     [(get_journaling_key [7] keyTagEntry 0, .batch ⟨[[3]], [([4], [5])]⟩), ([3], .bytes [9])]
     ⟨[[3]], [([4], [5])]⟩ (by decide) (by decide) (by decide) (by decide),
   (C3_coherently_resolve_journal [7]).2.2 1
     [(get_journaling_key [7] keyTagEntry 0, .batch ⟨[[3]], [([4], [5])]⟩), ([3], .bytes [9])]
     [([4], .bytes [5])]
     [[.del [7, 0, 2, 0, 0, 0, 0], .del [3], .put [4] (.bytes [5]),
       .del [7, 0, 1, 0, 0, 0, 0]]]
     (by decide) rfl⟩

/-- C8 witness: the idempotence theorem applied to a clean region and to a
region holding a one-block journal under base key `[7]`. -/
theorem C8_clear_journal_idempotent_witness :
    clear_journal [([5], StoredValue.bytes [6])] [7] = .ok ([([5], .bytes [6])], []) ∧
    clear_journal [([4], StoredValue.bytes [5])] [7] = .ok ([([4], .bytes [5])], []) :=
  ⟨(C8_clear_journal_idempotent [7]).1 [([5], .bytes [6])] rfl,
   (C8_clear_journal_idempotent [7]).2
     [(get_journaling_key [7] keyTagJournal 0, .header ⟨1⟩),
      (get_journaling_key [7] keyTagEntry 0, .batch ⟨[[3]], [([4], [5])]⟩),
      ([3], .bytes [9])]
     [([4], .bytes [5])]
     [[.del [7, 0, 2, 0, 0, 0, 0], .del [3], .put [4] (.bytes [5]),
       .del [7, 0, 1, 0, 0, 0, 0]]]
     rfl⟩

/-! ## Chunking lemmas for write_journal -/

theorem batchLen_pushOp (acc : SimpleUnorderedBatch) (op : JOp) :
    batchLen (pushOp acc op) = batchLen acc + 1 := by
  cases op <;> simp [pushOp, batchLen] <;> omega

theorem write_single_key_value_ok (s : Store) (k : Bytes) (v : StoredValue)
    (hk : k ≠ []) (hv : storedLen v ≤ MAX_VALUE_BYTES) :
    write_single_key_value s k v = .ok (storePut s k v) := by
  have hs := submit_ok_of_small [.put k v] s (by simp)
    (by simp [MAX_TRANSACT_WRITE_ITEM_SIZE])
  simp only [write_single_key_value, insPut_ok [] k v hk hv, List.nil_append, hs]
  simp [applyOps, applyOp]

theorem doFlush_nil (curr_len curr_size : Nat) : doFlush [] curr_len curr_size = true := by
  simp [doFlush]

theorem write_journal_loop_spec (base_key : Bytes) :
    ∀ (ops : List JOp) (s : Store) (curr_size curr_len : Nat) (acc : SimpleUnorderedBatch)
      (block_count : Nat) (s2 : Store) (tr : List (Bytes × StoredValue)) (bc : Nat),
      write_journal_loop base_key ops s curr_size curr_len acc block_count = .ok (s2, tr, bc) →
      bc = block_count + (specChunksGo ops curr_size curr_len acc).length ∧
      tr = entryWrites base_key block_count (specChunksGo ops curr_size curr_len acc) := by
  intro ops
  induction ops with
  | nil =>
      intro s cs cl acc bc0 s2 tr bc h
      simp only [write_journal_loop] at h
      injection h with h
      injection h with h1 h
      injection h with h2 h3
      subst h2
      subst h3
      simp [specChunksGo, entryWrites]
  | cons op rest ih =>
      intro s cs cl acc bc0 s2 tr bc h
      simp only [write_journal_loop] at h
      simp only [specChunksGo]
      by_cases hf : doFlush rest (cl + 1) (cs + jopSize op) = true
      · rw [if_pos hf] at h
        rw [if_pos hf]
        split at h
        · cases h
        · rename_i s1 hwrite
          split at h
          · cases h
          · rename_i hloop
            cases h
            obtain ⟨hbc, htr⟩ := ih _ _ _ _ _ _ _ _ hloop
            subst hbc
            subst htr
            refine ⟨?_, ?_⟩
            · simp only [List.length_cons, entryWrites]
              omega
            · simp [entryWrites]
      · rw [if_neg hf] at h
        rw [if_neg hf]
        exact ih s (cs + jopSize op) (cl + 1) (pushOp acc op) bc0 s2 tr bc h

theorem specChunksGo_ne_nil :
    ∀ (ops : List JOp) (curr_size curr_len : Nat) (acc : SimpleUnorderedBatch),
      ops ≠ [] → specChunksGo ops curr_size curr_len acc ≠ [] := by
  intro ops
  induction ops with
  | nil => intro cs cl acc h; exact absurd rfl h
  | cons op rest ih =>
      intro cs cl acc _
      simp only [specChunksGo]
      by_cases hf : doFlush rest (cl + 1) (cs + jopSize op) = true
      · rw [if_pos hf]
        simp
      · rw [if_neg hf]
        by_cases hrest : rest = []
        · subst hrest
          exact absurd (doFlush_nil (cl + 1) (cs + jopSize op)) hf
        · exact ih (cs + jopSize op) (cl + 1) (pushOp acc op) hrest

theorem doFlush_false_len (rest : List JOp) (curr_len curr_size : Nat)
    (h : doFlush rest curr_len curr_size = false) :
    curr_len ≠ MAX_TRANSACT_WRITE_ITEM_SIZE - 2 := by
  intro he
  simp [doFlush, he] at h

theorem write_journal_loop_blocks (base_key : Bytes) :
    ∀ (ops : List JOp) (s : Store) (curr_size curr_len : Nat) (acc : SimpleUnorderedBatch)
      (block_count : Nat) (s2 : Store) (tr : List (Bytes × StoredValue)) (bc : Nat),
      batchLen acc = curr_len →
      curr_len + 1 ≤ MAX_TRANSACT_WRITE_ITEM_SIZE - 2 →
      write_journal_loop base_key ops s curr_size curr_len acc block_count = .ok (s2, tr, bc) →
      ∀ k blk, (k, StoredValue.batch blk) ∈ tr →
        batchLen blk ≤ MAX_TRANSACT_WRITE_ITEM_SIZE - 2 := by
  intro ops
  induction ops with
  | nil =>
      intro s cs cl acc bc0 s2 tr bc _ _ h
      simp only [write_journal_loop] at h
      injection h with h
      injection h with h1 h
      injection h with h2 h3
      subst h2
      intro k blk hmem
      simp at hmem
  | cons op rest ih =>
      intro s cs cl acc bc0 s2 tr bc hacc hcl h
      simp only [write_journal_loop] at h
      by_cases hf : doFlush rest (cl + 1) (cs + jopSize op) = true
      · rw [if_pos hf] at h
        split at h
        · cases h
        · rename_i s1 hwrite
          split at h
          · cases h
          · rename_i hloop
            cases h
            intro k blk hmem
            rcases List.mem_cons.mp hmem with hmem | hmem
            · rw [Prod.mk.injEq] at hmem
              obtain ⟨h1, h2⟩ := hmem
              injection h2 with h2
              subst h2
              rw [batchLen_pushOp, hacc]
              exact hcl
            · exact ih _ _ _ _ _ _ _ _ (by simp [batchLen]) (by decide) hloop k blk hmem
      · rw [if_neg hf] at h
        have hne := doFlush_false_len rest (cl + 1) (cs + jopSize op)
          (Bool.eq_false_iff.mpr hf)
        exact ih _ _ _ _ _ _ _ _ (by rw [batchLen_pushOp, hacc]) (by omega) h

/-! ## C2: write_journal chunks the batch per the flush conditions -/

/-- C2: when `write_journal` succeeds, the journal writes it performed are
exactly one block entry per chunk of the walk over `deletions ‖ insertions`
cut by the flush condition (`specChunks`: flush after the last operation,
after the operation that brings the count to
`MAX_TRANSACT_WRITE_ITEM_SIZE - 2`, or when the next operation would push the
byte size over `MAX_BATCH_WRITE_ITEM_BYTES`), keyed `0, 1, ...` in walk
order; the returned header's `block_count` is the number of flushes; and
when at least one block was produced the header write is performed last,
while an empty walk writes nothing. -/
theorem C2_write_journal_chunks (s : Store) (b : SimpleUnorderedBatch) (base_key : Bytes)
    (s2 : Store) (tr : List (Bytes × StoredValue)) (hdr : JournalHeader)
    (h : write_journal s b base_key = .ok (s2, tr, hdr)) :
    hdr.block_count = (specChunks b).length ∧
    tr = entryWrites base_key 0 (specChunks b) ++
      (if 0 < (specChunks b).length
        then [(get_journaling_key base_key keyTagJournal 0, .header hdr)] else []) ∧
    (jops b ≠ [] → 0 < (specChunks b).length) := by
  have hne : jops b ≠ [] → 0 < (specChunks b).length := by
    intro hops
    have := specChunksGo_ne_nil (jops b) 0 0 ⟨[], []⟩ hops
    cases hcc : specChunks b with
    | nil => exact absurd hcc this
    | cons a l => simp
  simp only [write_journal] at h
  split at h
  · cases h
  · rename_i s1 tr1 bc hloop
    obtain ⟨hbc, htr⟩ := write_journal_loop_spec base_key (jops b) s 0 0 ⟨[], []⟩ 0 s1 tr1 bc hloop
    rw [Nat.zero_add] at hbc
    by_cases hpos : 0 < bc
    · rw [if_pos hpos] at h
      rw [write_single_key_value_ok s1 _ _ (journaling_key_ne_nil _ _ _)
        (by rw [storedLen_header]; decide)] at h
      cases h
      have hsc : specChunks b = specChunksGo (jops b) 0 0 ⟨[], []⟩ := rfl
      have hlen : (specChunks b).length = bc := by rw [hsc, ← hbc]
      refine ⟨hbc, ?_, hne⟩
      rw [htr, if_pos (by omega), hsc]
    · rw [if_neg hpos] at h
      cases h
      have hsc : specChunks b = specChunksGo (jops b) 0 0 ⟨[], []⟩ := rfl
      have hlen : (specChunks b).length = bc := by rw [hsc, ← hbc]
      refine ⟨hbc, ?_, hne⟩
      rw [htr, if_neg (by omega), hsc]
      simp

/-- C2 witness: the chunking theorem applied to the three-operation batch
`deletions = [[1], [2]]`, `insertions = [([3], [4])]` under base key `[7]`:
one flush (on the last operation), `block_count = 1`, header written last. -/
theorem C2_write_journal_chunks_witness :
    ({ block_count := 1 } : JournalHeader).block_count =
      (specChunks ⟨[[1], [2]], [([3], [4])]⟩).length ∧
    ([([7, 0, 2, 0, 0, 0, 0], StoredValue.batch ⟨[[1], [2]], [([3], [4])]⟩),
      ([7, 0, 1, 0, 0, 0, 0], StoredValue.header ⟨1⟩)] :
        List (Bytes × StoredValue)) =
      entryWrites [7] 0 (specChunks ⟨[[1], [2]], [([3], [4])]⟩) ++
        (if 0 < (specChunks ⟨[[1], [2]], [([3], [4])]⟩).length
          then [(get_journaling_key [7] keyTagJournal 0, .header ⟨1⟩)] else []) ∧
    (jops ⟨[[1], [2]], [([3], [4])]⟩ ≠ [] →
      0 < (specChunks ⟨[[1], [2]], [([3], [4])]⟩).length) :=
  C2_write_journal_chunks [] ⟨[[1], [2]], [([3], [4])]⟩ [7]
    [([7, 0, 1, 0, 0, 0, 0], StoredValue.header ⟨1⟩),
     ([7, 0, 2, 0, 0, 0, 0], StoredValue.batch ⟨[[1], [2]], [([3], [4])]⟩)]
    [([7, 0, 2, 0, 0, 0, 0], StoredValue.batch ⟨[[1], [2]], [([3], [4])]⟩),
     ([7, 0, 1, 0, 0, 0, 0], StoredValue.header ⟨1⟩)]
    ⟨1⟩ rfl

/-! ## C4: operation-count ceilings; the byte ceiling fails on the fast path -/

/-- C4 (amended): every transaction that `submit` actually sends carries at
most `MAX_TRANSACT_WRITE_ITEM_SIZE` operations; every block `write_journal`
persists holds at most `MAX_TRANSACT_WRITE_ITEM_SIZE - 2` operations; and a
replay step transaction for such a block (one block's operations plus the
entry delete plus the header operation) fits within
`MAX_TRANSACT_WRITE_ITEM_SIZE`. -/
theorem C4_operation_ceiling :
    (∀ (tb : TransactionBuilder) (s s2 : Store) (ops : List WriteOp),
      submit tb s = .ok (s2, some ops) → ops.length ≤ MAX_TRANSACT_WRITE_ITEM_SIZE) ∧
    (∀ (s : Store) (b : SimpleUnorderedBatch) (base_key : Bytes) (s2 : Store)
      (tr : List (Bytes × StoredValue)) (hdr : JournalHeader),
      write_journal s b base_key = .ok (s2, tr, hdr) →
      ∀ k blk, (k, StoredValue.batch blk) ∈ tr →
        batchLen blk ≤ MAX_TRANSACT_WRITE_ITEM_SIZE - 2) ∧
    (∀ (base_key : Bytes) (i : Nat) (blk : SimpleUnorderedBatch),
      batchLen blk ≤ MAX_TRANSACT_WRITE_ITEM_SIZE - 2 →
      (stepTxn base_key i blk).length ≤ MAX_TRANSACT_WRITE_ITEM_SIZE) := by
  refine ⟨fun tb s s2 ops h => ?_, fun s b bk s2 tr hdr h => ?_, fun bk i blk hblk => ?_⟩
  · rw [submit] at h
    split_ifs at h with h1 h2
    · injection h with h
      injection h with ha hb
      cases hb
    · injection h with h
      injection h with ha hb
      injection hb with hb
      subst hb
      omega
  · simp only [write_journal] at h
    split at h
    · cases h
    · rename_i s1 tr1 bc hloop
      have hb := write_journal_loop_blocks bk (jops b) s 0 0 ⟨[], []⟩ 0 s1 tr1 bc
        (by simp [batchLen]) (by decide) hloop
      by_cases hpos : 0 < bc
      · rw [if_pos hpos, write_single_key_value_ok s1 _ _ (journaling_key_ne_nil _ _ _)
          (by rw [storedLen_header]; decide)] at h
        cases h
        intro k blk hmem
        rcases List.mem_append.mp hmem with hmem | hmem
        · exact hb k blk hmem
        · simp at hmem
      · rw [if_neg hpos] at h
        cases h
        exact hb
  · rw [stepTxn_length]
    simp only [MAX_TRANSACT_WRITE_ITEM_SIZE] at hblk ⊢
    omega


/-- C4 counterexample to the byte ceiling: the batch of 100 maximal-size
puts is fast-path feasible, so the core submits it as one single transaction
whose byte footprint, 100 × (1 + 409600) = 40960100, exceeds
`MAX_BATCH_WRITE_ITEM_BYTES` = 16777216; no byte-size check guards the fast
path. -/
theorem C4_byte_ceiling_counterexample :
    is_fastpath_feasible bigBatch = true ∧
    write_fastpath_failsafe [] bigBatch = .ok (applyOps [] bigOps, some bigOps) ∧
    MAX_BATCH_WRITE_ITEM_BYTES < txnByteSize bigOps := by
  refine ⟨?_, ?_, ?_⟩
  · simp [is_fastpath_feasible, batchLen, bigBatch, MAX_TRANSACT_WRITE_ITEM_SIZE]
  · have hvals : ∀ kv ∈ bigBatch.insertions,
        kv.1 ≠ ([] : Bytes) ∧ kv.2.length ≤ MAX_VALUE_BYTES := by
      intro kv hkv
      simp only [bigBatch, List.mem_map, List.mem_range] at hkv
      obtain ⟨i, hi, rfl⟩ := hkv
      refine ⟨by simp, ?_⟩
      rw [bigVal_length]
      decide
    have hops : bigBatch.deletions.map WriteOp.del ++
        bigBatch.insertions.map (fun kv => WriteOp.put kv.1 (.bytes kv.2)) = bigOps := by
      show ([] : List WriteOp) ++
        ((List.range 100).map (fun i => ([i + 1], bigVal))).map
          (fun kv => WriteOp.put kv.1 (.bytes kv.2)) = bigOps
      rw [List.nil_append, List.map_map]
      rfl
    have hsub := submit_ok_of_small bigOps [] (by simp [bigOps])
      (by simp [bigOps, MAX_TRANSACT_WRITE_ITEM_SIZE])
    rw [write_fastpath_failsafe_eq [] bigBatch (by simp [bigBatch]) hvals, hops, hsub]
  · have h2 : ∀ (l : List Nat),
        (((l.map (fun i => WriteOp.put [i + 1] (StoredValue.bytes bigVal))).map
          (fun op => match op with
            | WriteOp.put k v => k.length + storedLen v
            | WriteOp.del k => k.length)).sum) = l.length * 409601 := by
      intro l
      induction l with
      | nil => rfl
      | cons a t ih =>
          simp only [List.map_cons, List.sum_cons, ih, storedLen_bytes,
            bigVal_length, List.length_cons, List.length_nil]
          omega
    have h3 : txnByteSize bigOps = 100 * 409601 := by
      simp only [txnByteSize, bigOps]
      rw [h2 (List.range 100), List.length_range]
    rw [h3]
    decide

/-- C4 witness: the ceiling theorem applied to a concrete submit, a concrete
journal write and a concrete replay block. -/
theorem C4_operation_ceiling_witness :
    ([WriteOp.del [1]] : List WriteOp).length ≤ MAX_TRANSACT_WRITE_ITEM_SIZE ∧
    batchLen ⟨[[1], [2]], [([3], [4])]⟩ ≤ MAX_TRANSACT_WRITE_ITEM_SIZE - 2 ∧
    (stepTxn [7] 0 ⟨[[3]], [([4], [5])]⟩).length ≤ MAX_TRANSACT_WRITE_ITEM_SIZE :=
  ⟨C4_operation_ceiling.1 [.del [1]] [] [] [.del [1]] rfl,
   C4_operation_ceiling.2.1 [] ⟨[[1], [2]], [([3], [4])]⟩ [7]
     [([7, 0, 1, 0, 0, 0, 0], .header ⟨1⟩),
      ([7, 0, 2, 0, 0, 0, 0], .batch ⟨[[1], [2]], [([3], [4])]⟩)]
     [([7, 0, 2, 0, 0, 0, 0], .batch ⟨[[1], [2]], [([3], [4])]⟩),
      ([7, 0, 1, 0, 0, 0, 0], .header ⟨1⟩)]
     ⟨1⟩ rfl [7, 0, 2, 0, 0, 0, 0] ⟨[[1], [2]], [([3], [4])]⟩ (by decide),
   C4_operation_ceiling.2.2 [7] 0 ⟨[[3]], [([4], [5])]⟩ (by decide)⟩

/-! ## C5: fast path if and only if the batch fits one transaction -/

/-- C5: `write_batch` takes the fast path exactly when the normalized batch's
operation count is at most `MAX_TRANSACT_WRITE_ITEM_SIZE` (the
`is_fastpath_feasible` test), in which case it submits the whole batch as one
transaction of all deletes then all puts; otherwise it takes the journaled
path: `write_journal` followed by `coherently_resolve_journal` on the
returned header's `block_count`. -/
theorem C5_write_batch_paths (s : Store) (b : SimpleUnorderedBatch) (base_key : Bytes) :
    (is_fastpath_feasible b = true ↔ batchLen b ≤ MAX_TRANSACT_WRITE_ITEM_SIZE) ∧
    (batchLen b ≤ MAX_TRANSACT_WRITE_ITEM_SIZE →
      write_batch s b base_key =
        match write_fastpath_failsafe s b with
        | .error e => .error e
        | .ok (s2, _) => .ok (s2, PathTaken.fast)) ∧
    (MAX_TRANSACT_WRITE_ITEM_SIZE < batchLen b →
      write_batch s b base_key =
        match write_journal s b base_key with
        | .error e => .error e
        | .ok (s2, _, header) =>
            match coherently_resolve_journal base_key header.block_count s2 with
            | .error e => .error e
            | .ok (s3, _) => .ok (s3, PathTaken.journaled)) ∧
    ((∀ k ∈ b.deletions, k ≠ []) →
      (∀ kv ∈ b.insertions, kv.1 ≠ [] ∧ kv.2.length ≤ MAX_VALUE_BYTES) →
      write_fastpath_failsafe s b =
        submit (b.deletions.map WriteOp.del ++
          b.insertions.map (fun kv => WriteOp.put kv.1 (.bytes kv.2))) s) := by
  refine ⟨?_, fun h => ?_, fun h => ?_, write_fastpath_failsafe_eq s b⟩
  · simp [is_fastpath_feasible]
  · rw [write_batch, if_pos (by simp [is_fastpath_feasible, h])]
  · rw [write_batch, if_neg (by simp [is_fastpath_feasible]; omega)]

/-- C5 witness: the path theorem applied to a 2-operation batch (fast) and a
101-operation batch (journaled). -/
theorem C5_write_batch_paths_witness :
    (is_fastpath_feasible ⟨[[1]], [([2], [3])]⟩ = true ↔
      batchLen ⟨[[1]], [([2], [3])]⟩ ≤ MAX_TRANSACT_WRITE_ITEM_SIZE) ∧
    write_batch [] ⟨[[1]], [([2], [3])]⟩ [7] =
      (match write_fastpath_failsafe [] ⟨[[1]], [([2], [3])]⟩ with
        | .error e => .error e
        | .ok (s2, _) => .ok (s2, PathTaken.fast)) ∧
    write_batch [] ⟨List.replicate 101 [1], []⟩ [7] =
      (match write_journal [] ⟨List.replicate 101 [1], []⟩ [7] with
        | .error e => .error e
        | .ok (s2, _, header) =>
            match coherently_resolve_journal [7] header.block_count s2 with
            | .error e => .error e
            | .ok (s3, _) => .ok (s3, PathTaken.journaled)) ∧
    write_fastpath_failsafe [] ⟨[[1]], [([2], [3])]⟩ =
      submit ([[1]].map WriteOp.del ++
        [([2], [3])].map (fun kv => WriteOp.put kv.1 (.bytes kv.2))) [] :=
  ⟨(C5_write_batch_paths [] ⟨[[1]], [([2], [3])]⟩ [7]).1,
   (C5_write_batch_paths [] ⟨[[1]], [([2], [3])]⟩ [7]).2.1 (by decide),
   (C5_write_batch_paths [] ⟨List.replicate 101 [1], []⟩ [7]).2.2.1
     (by simp [batchLen, MAX_TRANSACT_WRITE_ITEM_SIZE]),
   (C5_write_batch_paths [] ⟨[[1]], [([2], [3])]⟩ [7]).2.2.2 (by decide) (by decide)⟩

/-! ## C9: read_multi_key_bytes preserves order and length -/

theorem read_key_bytes_eq (s : Store) (k : Bytes) :
    read_key_bytes s k = .ok ((storeGet s k).map storedBytes) := by
  cases h : storeGet s k <;> simp [read_key_bytes, h]

/-- C9: a successful `read_multi_key_bytes` returns one result per input key,
and the `i`-th result is exactly the point read (`read_key_bytes`) of the
`i`-th input key: `join_all` keeps results in the order the futures were
created, which is the order of the input keys. -/
theorem C9_read_multi_key_bytes (s : Store) (keys : List Bytes)
    (res : List (Option Bytes)) (h : read_multi_key_bytes s keys = .ok res) :
    res.length = keys.length ∧
    ∀ (i : Nat) (hk : i < keys.length) (hr : i < res.length),
      read_key_bytes s (keys.get ⟨i, hk⟩) = .ok (res.get ⟨i, hr⟩) := by
  induction keys generalizing res with
  | nil =>
      simp only [read_multi_key_bytes] at h
      injection h with h
      subst h
      exact ⟨rfl, fun i hk => absurd hk (by simp)⟩
  | cons k rest ih =>
      simp only [read_multi_key_bytes, read_key_bytes_eq] at h
      cases hrest : read_multi_key_bytes s rest with
      | error e => rw [hrest] at h; cases h
      | ok vs =>
          rw [hrest] at h
          injection h with h
          subst h
          obtain ⟨ih1, ih2⟩ := ih vs hrest
          refine ⟨by simp [ih1], fun i hk hr => ?_⟩
          cases i with
          | zero => simp [read_key_bytes_eq]
          | succ j => exact ih2 j (by simpa using hk) (by simpa using hr)

/-- C9 witness: the order theorem applied to two keys against a one-item
table, instantiated at both indices. -/
theorem C9_read_multi_key_bytes_witness :
    ([some [9], none] : List (Option Bytes)).length = ([[1], [2]] : List Bytes).length ∧
    read_key_bytes [([1], StoredValue.bytes [9])] [1] = .ok (some [9]) ∧
    read_key_bytes [([1], StoredValue.bytes [9])] [2] = .ok none :=
  ⟨(C9_read_multi_key_bytes [([1], .bytes [9])] [[1], [2]] [some [9], none] rfl).1,
   (C9_read_multi_key_bytes [([1], .bytes [9])] [[1], [2]] [some [9], none] rfl).2
     0 (by decide) (by decide),
   (C9_read_multi_key_bytes [([1], .bytes [9])] [[1], [2]] [some [9], none] rfl).2
     1 (by decide) (by decide)⟩
